import Mathlib

/-!
Shallow embedding of the Gofile transfer bot (`app/` python sources):
`account_pool.py` (credential rotation), `netutils.py` (sanitize/unquote,
filename picking, `smart_download`), `gofile_api.py` (response
normalisation and `upload_file`), and `handlers.py` (`_ThrottleEdit`,
`_process_http_url`).  Machine strings are `List Char`, bytes are `Nat`,
wall-clock times are `ℚ`.
-/

namespace Gofile

/-! ## `app/account_pool.py` — `AccountPool`

State of an `AccountPool`: the credential list is abstracted to its
length `n` (tokens are only ever used through their index), `idx` is the
rotation cursor `self._idx`, `exhausted` is the in-memory set
`self._exhausted`.  The quota probe `is_quota_exhausted` performed on a
candidate is a parameter `probe : Nat → Option Bool` (`none` models the
inconclusive `None` result). -/

structure PoolState where
  idx : Nat
  exhausted : Finset Nat
  deriving DecidableEq

/-- The `while tried < n` loop of `AccountPool.pick`: `fuel` is
`n - tried`.  A candidate is accepted when the probe says `some false`
or `none` (python: `status is False or status is None`); a `some true`
probe marks it exhausted and advances the cursor.  When the loop runs
out (`fuel = 0`, all seem exhausted) the current cursor's index is
returned and the cursor is left where it is. -/
def pickAux (probe : Nat → Option Bool) (n : Nat) :
    Nat → Nat → Finset Nat → Nat × Nat × Finset Nat
  | 0, i, ex => (i % n, i, ex)
  | fuel + 1, i, ex =>
    match probe (i % n) with
    | some true => pickAux probe n fuel ((i % n + 1) % n) (insert (i % n) ex)
    | _ => (i % n, (i % n + 1) % n, ex)

/-- `AccountPool.pick` for a pool of `n` tokens: the chosen index and the
updated pool state. -/
def pick (probe : Nat → Option Bool) (n : Nat) (st : PoolState) :
    Nat × PoolState :=
  let r := pickAux probe n n st.idx st.exhausted
  (r.1, ⟨r.2.1, r.2.2⟩)

/-- `AccountPool.mark_exhausted`: inserts the index into the in-memory
set; the token list and the cursor are untouched. -/
def mark_exhausted (i : Nat) (st : PoolState) : PoolState :=
  ⟨st.idx, insert i st.exhausted⟩

/-- `AccountPool.exhausted_indices`: sorted snapshot of the set. -/
def exhausted_indices (st : PoolState) : List Nat :=
  st.exhausted.sort (· ≤ ·)

/-- Pool state after `k` successive `pick` calls. -/
def pickState (probe : Nat → Option Bool) (n : Nat) (st : PoolState) :
    Nat → PoolState
  | 0 => st
  | k + 1 => (pick probe n (pickState probe n st k)).2

/-- Index returned by the `(k+1)`-st successive `pick` call. -/
def pickSeq (probe : Nat → Option Bool) (n : Nat) (st : PoolState) (k : Nat) : Nat :=
  (pick probe n (pickState probe n st k)).1

/-- A probe that never confirms exhaustion (reports `some false` or
`none` on every index). -/
def Accepting (probe : Nat → Option Bool) : Prop :=
  ∀ i, probe i ≠ some true

/-! Helper lemmas about `pick`. -/

theorem pickAux_accept (probe : Nat → Option Bool) (n fuel i : Nat)
    (ex : Finset Nat) (h : probe (i % n) ≠ some true) :
    pickAux probe n (fuel + 1) i ex = (i % n, (i % n + 1) % n, ex) := by
  cases hp : probe (i % n) with
  | none => simp [pickAux, hp]
  | some b =>
    cases b with
    | false => simp [pickAux, hp]
    | true => exact absurd hp h

theorem pick_accepting (probe : Nat → Option Bool) (n : Nat)
    (hn : 0 < n) (hp : Accepting probe) (st : PoolState) :
    pick probe n st = (st.idx % n, ⟨(st.idx + 1) % n, st.exhausted⟩) := by
  obtain ⟨fuel, hf⟩ : ∃ fuel, n = fuel + 1 := ⟨n - 1, by omega⟩
  have h := pickAux_accept probe n fuel st.idx st.exhausted (hp _)
  simp only [pick]
  rw [hf] at h ⊢
  rw [h]
  simp [Nat.mod_add_mod]

theorem pickState_accepting (probe : Nat → Option Bool) (n : Nat)
    (hn : 0 < n) (hp : Accepting probe) (st : PoolState) (hidx : st.idx < n) :
    ∀ k, pickState probe n st k = ⟨(st.idx + k) % n, st.exhausted⟩ := by
  intro k
  induction k with
  | zero =>
    simp [pickState, Nat.mod_eq_of_lt hidx]
  | succ k ih =>
    have h2 : ((st.idx + k) % n + 1) % n = (st.idx + (k + 1)) % n := by
      rw [Nat.mod_add_mod]
      congr 1
    rw [pickState, ih, pick_accepting probe n hn hp]
    simp [h2]

theorem pickSeq_accepting (probe : Nat → Option Bool) (n : Nat)
    (hn : 0 < n) (hp : Accepting probe) (st : PoolState) (hidx : st.idx < n)
    (k : Nat) : pickSeq probe n st k = (st.idx + k) % n := by
  rw [pickSeq, pickState_accepting probe n hn hp st hidx k,
    pick_accepting probe n hn hp]
  simp [Nat.mod_mod_of_dvd]

theorem pickAux_allTrue (probe : Nat → Option Bool) (n : Nat)
    (hall : ∀ j, j < n → probe j = some true) (hn : 0 < n) :
    ∀ fuel i ex, i < n →
      (pickAux probe n fuel i ex).1 = (i + fuel) % n ∧
      (pickAux probe n fuel i ex).2.1 = (i + fuel) % n := by
  intro fuel
  induction fuel with
  | zero =>
    intro i ex hi
    simp [pickAux, Nat.mod_eq_of_lt hi]
  | succ fuel ih =>
    intro i ex hi
    have hmod : i % n = i := Nat.mod_eq_of_lt hi
    have hp : probe (i % n) = some true := by rw [hmod]; exact hall i hi
    have hlt : (i % n + 1) % n < n := Nat.mod_lt _ hn
    obtain ⟨h1, h2⟩ := ih ((i % n + 1) % n) (insert (i % n) ex) hlt
    have hkey : ((i % n + 1) % n + fuel) % n = (i + (fuel + 1)) % n := by
      rw [hmod, Nat.mod_add_mod]
      congr 1
      omega
    simp only [pickAux, hp]
    exact ⟨by rw [h1, hkey], by rw [h2, hkey]⟩

/-- C7: for a pool of `n` credentials whose quota probe never reports
exhaustion, successive `pick()` calls starting from a fresh pool return
the indices `0, 1, …, n-1` and then wrap back to `0`: the `(k+1)`-st
call returns `k % n`, deterministic round-robin. -/
theorem claim_C7_round_robin (n : Nat) (probe : Nat → Option Bool)
    (hn : 0 < n) (hp : Accepting probe) (k : Nat) :
    pickSeq probe n ⟨0, ∅⟩ k = k % n := by
  have h := pickSeq_accepting probe n hn hp ⟨0, ∅⟩ hn k
  simpa using h

theorem claim_C7_round_robin_witness :
    pickSeq (fun _ => none) 3 ⟨0, ∅⟩ 4 = 4 % 3 :=
  claim_C7_round_robin 3 (fun _ => none) (by decide) (fun _ => by simp) 4

/-- C8: `mark_exhausted i` never permanently drops credential `i`:
with a probe that does not confirm exhaustion, some `pick()` within the
next full rotation (`k < n`) returns `i` again, and marking any index
exhausted does not change which credential the next `pick()` chooses
(the flag is memory-only, nothing leaves the rotation). -/
theorem claim_C8_marked_not_dropped (n : Nat) (probe : Nat → Option Bool)
    (st : PoolState) (i : Nat) (hn : 0 < n) (hp : Accepting probe)
    (hidx : st.idx < n) (hi : i < n) :
    (∃ k, k < n ∧ pickSeq probe n (mark_exhausted i st) k = i) ∧
    (∀ j, (pick probe n (mark_exhausted j st)).1 = (pick probe n st).1) := by
  have hmidx : (mark_exhausted i st).idx = st.idx := rfl
  constructor
  · refine ⟨if st.idx ≤ i then i - st.idx else n + i - st.idx, ?_, ?_⟩
    · split <;> omega
    · rw [pickSeq_accepting probe n hn hp _ (by rw [hmidx]; exact hidx)]
      rw [hmidx]
      split
      · have h : st.idx + (i - st.idx) = i := by omega
        rw [h]
        exact Nat.mod_eq_of_lt hi
      · have h : st.idx + (n + i - st.idx) = n + i := by omega
        rw [h, Nat.add_mod_left]
        exact Nat.mod_eq_of_lt hi
  · intro j
    rw [pick_accepting probe n hn hp, pick_accepting probe n hn hp]
    rfl

theorem claim_C8_marked_not_dropped_witness :
    ((∃ k, k < 3 ∧ pickSeq (fun _ => some false) 3 (mark_exhausted 0 ⟨1, ∅⟩) k = 0) ∧
     (∀ j, (pick (fun _ => some false) 3 (mark_exhausted j ⟨1, ∅⟩)).1 =
        (pick (fun _ => some false) 3 ⟨1, ∅⟩).1)) :=
  claim_C8_marked_not_dropped 3 (fun _ => some false) ⟨1, ∅⟩ 0
    (by decide) (fun _ => by simp) (by decide) (by decide)

/-- C9: if a full rotation finds every credential confirmed exhausted by
its probe, `pick()` does not fail: it returns the credential at the
current cursor and leaves the cursor there; and a candidate whose probe
is not a confirmed `some true` (i.e. `some false` or the inconclusive
`none`) is accepted immediately. -/
theorem claim_C9_all_exhausted_fallback (n : Nat) (probe : Nat → Option Bool)
    (st : PoolState) (hn : 0 < n) (hidx : st.idx < n) :
    ((∀ j, j < n → probe j = some true) →
      (pick probe n st).1 = st.idx ∧ (pick probe n st).2.idx = st.idx) ∧
    (probe (st.idx % n) ≠ some true → (pick probe n st).1 = st.idx) := by
  constructor
  · intro hall
    obtain ⟨h1, h2⟩ := pickAux_allTrue probe n hall hn n st.idx st.exhausted hidx
    have he : (st.idx + n) % n = st.idx := by
      rw [Nat.add_mod_right]
      exact Nat.mod_eq_of_lt hidx
    exact ⟨by simp [pick, h1, he], by simp [pick, h2, he]⟩
  · intro hacc
    obtain ⟨fuel, hf⟩ : ∃ fuel, n = fuel + 1 := ⟨n - 1, by omega⟩
    subst hf
    simp only [pick]
    rw [pickAux_accept probe (fuel + 1) fuel st.idx st.exhausted hacc]
    exact Nat.mod_eq_of_lt hidx

theorem claim_C9_all_exhausted_fallback_witness :
    (((∀ j, j < 2 → (fun _ => (some true : Option Bool)) j = some true) →
      (pick (fun _ => some true) 2 ⟨0, ∅⟩).1 = 0 ∧
      (pick (fun _ => some true) 2 ⟨0, ∅⟩).2.idx = 0) ∧
     ((fun _ => (some true : Option Bool)) (0 % 2) ≠ some true →
      (pick (fun _ => some true) 2 ⟨0, ∅⟩).1 = 0)) :=
  claim_C9_all_exhausted_fallback 2 (fun _ => some true) ⟨0, ∅⟩ (by decide) (by decide)

/-! ## `app/netutils.py` — `smart_download`

`smart_download` probes `(total_size, ranged)` once, then runs a
`while True:` retry loop.  Each iteration opens the output file
(creating it when absent), derives the resume offset from the on-disk
length, sends one streaming `GET` (with a `Range: bytes=<off>-` header
when `off > 0` and the probe reported range support), and appends the
streamed chunks.  We model the network by a script of responses, one per
iteration.  The probe results `total_size` (`-1` = unknown, as in the
python) and `ranged` are parameters.  The on-disk file is
`Option (List Nat)` — `none` means the path does not exist. -/

/-- One scripted server response for one loop iteration: the HTTP status
of the `GET`, the streamed body chunks, and whether an exception
interrupts the stream after those chunks are written. -/
structure Resp where
  status : Nat
  chunks : List (List Nat)
  interrupted : Bool
  deriving DecidableEq

/-- `MAX_RETRIES` from `netutils.py`. -/
def MAX_RETRIES : Nat := 5

/-- Result of `smart_download` together with the final on-disk state:
`ok` = the function returned `out_path`, `fatal` = an exception was
surfaced to the caller after the retry budget, `outOfScript` = the
response script ran out before the loop ended. -/
inductive DlOutcome
  | ok (disk : List Nat)
  | fatal (disk : Option (List Nat))
  | outOfScript (disk : Option (List Nat))
  deriving DecidableEq

inductive IterOut
  | success
  | failure
  deriving DecidableEq

/-- One iteration of the `while True:` body of `smart_download`: returns
the `Range` offset of the request it issued (`none` = no `Range`
header), the file content after the iteration, and whether the iteration
ended in `return out_path` (`success`) or on the retry path (`failure`:
a non-2xx status, an interrupted stream, or a short read against a known
`total_size`).  On a resumed request answered with a plain `200` the
file is truncated to zero before the body is written
(`fp.seek(0); fp.truncate(0); downloaded = 0`). -/
def iterOnce (ranged : Bool) (total_size : Int) (disk : Option (List Nat))
    (r : Resp) : Option Nat × List Nat × IterOut :=
  let d0 := disk.getD []
  let downloaded := d0.length
  let req : Option Nat := if 0 < downloaded ∧ ranged = true then some downloaded else none
  if r.status = 200 ∨ r.status = 206 then
    let d1 := if 0 < downloaded ∧ r.status = 200 then [] else d0
    let d2 := d1 ++ r.chunks.flatten
    if r.interrupted = true then (req, d2, .failure)
    else if 0 < total_size ∧ (d2.length : Int) < total_size then (req, d2, .failure)
    else (req, d2, .success)
  else (req, d0, .failure)

/-- The retry loop of `smart_download`: one response per iteration, the
attempt counter incremented on every failure, the loop aborted with the
exception once `attempt > MAX_RETRIES`.  The second component logs the
`Range` offset of every request issued.  Note that no branch ever
deletes the on-disk file. -/
def runLoop (ranged : Bool) (total_size : Int) :
    List Resp → Nat → Option (List Nat) → DlOutcome × List (Option Nat)
  | [], _, disk => (.outOfScript disk, [])
  | r :: rest, attempt, disk =>
    let step := iterOnce ranged total_size disk r
    match step.2.2 with
    | .success => (.ok step.2.1, [step.1])
    | .failure =>
      if MAX_RETRIES < attempt + 1 then (.fatal (some step.2.1), [step.1])
      else
        let next := runLoop ranged total_size rest (attempt + 1) (some step.2.1)
        (next.1, step.1 :: next.2)

/-- `smart_download` after its header probe: early-exits when the file
already has `total_size` bytes, otherwise enters the retry loop with
`attempt = 0`. -/
def smart_download (ranged : Bool) (total_size : Int)
    (disk : Option (List Nat)) (script : List Resp) :
    DlOutcome × List (Option Nat) :=
  match disk with
  | some d =>
    if 0 < total_size ∧ total_size ≤ (d.length : Int) then (.ok d, [])
    else runLoop ranged total_size script 0 (some d)
  | none => runLoop ranged total_size script 0 none

/-- Modelled from the spec's words (§4.2 step 3), for comparison with
the code: split `[0, size)` into `K = min maxParts ⌈size / segSize⌉`
segments, returned as inclusive byte ranges. -/
def specSegments (size segSize maxParts : Nat) : List (Nat × Nat) :=
  let k := min maxParts ((size + segSize - 1) / segSize)
  (List.range k).map (fun i => (i * segSize, min ((i + 1) * segSize) size - 1))

/-- A `200` response delivering `chunks` without interruption: the file
afterwards holds exactly the joined body (a fresh file receives it from
offset 0; a resumed file is truncated first because the server ignored
the `Range` header). -/
theorem iterOnce_200 (ranged : Bool) (total_size : Int)
    (disk : Option (List Nat)) (chunks : List (List Nat)) :
    iterOnce ranged total_size disk ⟨200, chunks, false⟩ =
      (if 0 < (disk.getD []).length ∧ ranged = true
        then some (disk.getD []).length else none,
       chunks.flatten,
       if 0 < total_size ∧ (chunks.flatten.length : Int) < total_size
        then .failure else .success) := by
  have hnil : ¬ 0 < (disk.getD []).length → disk.getD [] = [] := by
    intro h
    cases hd : disk.getD [] with
    | nil => rfl
    | cons a l => rw [hd] at h; simp at h
  by_cases h : 0 < (disk.getD []).length
  · simp [iterOnce, h]
    split <;> rfl
  · simp [iterOnce, hnil h]
    split <;> rfl

theorem runLoop_single_200 (ranged : Bool) (total : Int)
    (disk : Option (List Nat)) (chunks : List (List Nat)) (rest : List Resp)
    (hlen : (chunks.flatten.length : Int) = total) :
    runLoop ranged total (⟨200, chunks, false⟩ :: rest) 0 disk =
      (.ok chunks.flatten,
       [if 0 < (disk.getD []).length ∧ ranged = true
         then some (disk.getD []).length else none]) := by
  have hshort : ¬ (0 < total ∧ (chunks.flatten.length : Int) < total) := by omega
  simp only [runLoop, iterOnce_200, if_neg hshort]

/-- C1: the claim says a known-size, range-supporting fetch is split
into `K = min(max parallelism, ceil(size/segment_size))` concurrent
segments — for 20 MB with 8 MB segments that would be the three ranges
below.  The code's `smart_download` does no such thing: on a fresh fetch
of a 20 MB resource with ranges supported it issues exactly one request,
with no `Range` header at all, and streams the whole body on that single
connection. -/
theorem claim_C1_counterexample :
    (smart_download true 20971520 none
        [⟨200, [List.replicate 20971520 0], false⟩]).2 = [none] ∧
    specSegments 20971520 8388608 6 =
      [(0, 8388607), (8388608, 16777215), (16777216, 20971519)] ∧
    [(none : Option Nat)].length ≠
      (specSegments 20971520 8388608 6).length := by
  refine ⟨?_, by decide, by decide⟩
  have hlen : (((List.replicate 20971520 (0 : Nat)) :: []).flatten.length : Int)
      = 20971520 := by
    rw [List.flatten_cons, List.flatten_nil, List.append_nil, List.length_replicate]
    norm_num
  rw [smart_download, runLoop_single_200 true 20971520 none _ [] hlen]
  rfl

/-- C1 (amended): for a fetch whose probed size is known and whose
server supports ranges, `smart_download` fetches the resource as a
single sequential stream: starting from a fresh file it issues exactly
one request carrying no `Range` header, never splits `[0, size)` into
parallel segments, and on a compliant `200` response ends with exactly
the body bytes on disk. -/
theorem claim_C1_single_stream (total : Int) (chunks : List (List Nat))
    (hlen : (chunks.flatten.length : Int) = total) :
    smart_download true total none [⟨200, chunks, false⟩] =
      (.ok chunks.flatten, [none]) := by
  rw [smart_download, runLoop_single_200 true total none _ [] hlen]
  simp

theorem claim_C1_single_stream_witness :
    smart_download true 3 none [⟨200, [[7, 8, 9]], false⟩] =
      (.ok [7, 8, 9], [none]) :=
  claim_C1_single_stream 3 [[7, 8, 9]] (by decide)

/-- Whenever the retry loop surfaces the fatal retry-exhaustion error,
the file it worked on still exists on disk: no branch deletes it. -/
theorem runLoop_fatal_some (ranged : Bool) (total : Int) :
    ∀ (script : List Resp) (attempt : Nat) (disk : Option (List Nat))
      (d : Option (List Nat)) (log : List (Option Nat)),
      runLoop ranged total script attempt disk = (.fatal d, log) →
      ∃ c, d = some c := by
  intro script
  induction script with
  | nil =>
    intro attempt disk d log h
    simp [runLoop] at h
  | cons r rest ih =>
    intro attempt disk d log h
    simp only [runLoop] at h
    split at h
    · simp [Prod.mk.injEq] at h
    · split at h
      · rw [Prod.mk.injEq] at h
        obtain ⟨h1, -⟩ := h
        cases h1
        exact ⟨_, rfl⟩
      · rw [Prod.mk.injEq] at h
        obtain ⟨h1, -⟩ := h
        exact ih _ _ d _ (by rw [← h1])

/-- C3: the claim says that when a fetch exhausts its retry budget the
error is fatal AND the partial file is deleted before the error is
surfaced.  Concretely: a 10-byte resource whose first attempt streams 5
bytes and whose next five resume attempts all return empty `206` bodies
exhausts `MAX_RETRIES = 5`; `smart_download` surfaces the fatal error
while the 5 partial bytes are still on disk — nothing was deleted. -/
theorem claim_C3_counterexample :
    smart_download true 10 none
        (⟨200, [[1, 2, 3, 4, 5]], false⟩ :: List.replicate 5 ⟨206, [], false⟩) =
      (.fatal (some [1, 2, 3, 4, 5]),
       [none, some 5, some 5, some 5, some 5, some 5]) := by
  decide

/-- C3 (amended): exhausting retries on the (single-stream) fetch is
fatal for the whole fetch — the error propagates to the caller — but the
partial output file is NOT deleted first: on every fatal outcome of
`smart_download` the file still exists on disk. -/
theorem claim_C3_fatal_leaves_file (ranged : Bool) (total : Int)
    (disk : Option (List Nat)) (script : List Resp) (d : Option (List Nat))
    (log : List (Option Nat))
    (h : smart_download ranged total disk script = (.fatal d, log)) :
    ∃ c, d = some c := by
  cases disk with
  | none =>
    simp only [smart_download] at h
    exact runLoop_fatal_some ranged total script 0 none d log h
  | some v =>
    simp only [smart_download] at h
    split at h
    · simp [Prod.mk.injEq] at h
    · exact runLoop_fatal_some ranged total script 0 (some v) d log h

theorem claim_C3_fatal_leaves_file_witness :
    ∃ c, (some [1, 2, 3, 4, 5] : Option (List Nat)) = some c :=
  claim_C3_fatal_leaves_file true 10 none
    (⟨200, [[1, 2, 3, 4, 5]], false⟩ :: List.replicate 5 ⟨206, [], false⟩)
    (some [1, 2, 3, 4, 5]) [none, some 5, some 5, some 5, some 5, some 5]
    (by decide)

/-- C10: on a resumed download (a nonempty, incomplete file on disk, so
a `Range: bytes=<len>-` request is sent) where the server ignores the
range and answers HTTP `200` with the full body, `smart_download`
truncates the file to zero and rewrites it from offset 0: the final
file is exactly the freshly streamed body, with no duplicated or
shifted content from the old partial bytes. -/
theorem claim_C10_resume_ignored_restart (d : List Nat)
    (chunks : List (List Nat)) (total : Int) (hd : 0 < d.length)
    (hincomplete : (d.length : Int) < total)
    (hlen : (chunks.flatten.length : Int) = total) :
    smart_download true total (some d) [⟨200, chunks, false⟩] =
      (.ok chunks.flatten, [some d.length]) := by
  have hne : ¬ (0 < total ∧ total ≤ (d.length : Int)) := by omega
  simp only [smart_download]
  rw [if_neg hne, runLoop_single_200 true total (some d) chunks [] hlen]
  simp [hd]

theorem claim_C10_resume_ignored_restart_witness :
    smart_download true 3 (some [9]) [⟨200, [[1, 2, 3]], false⟩] =
      (.ok [1, 2, 3], [some 1]) :=
  claim_C10_resume_ignored_restart [9] [[1, 2, 3]] 3
    (by decide) (by decide) (by decide)

/-! ## `app/netutils.py` — `sanitize_filename`

`sanitize_filename(name)` is `unquote(name).strip()`, then the character
class `[\\/:*?"<>|\x00-\x1F]` replaced by `_`, then runs `[\s_]{2,}`
collapsed to a single space, then `.strip()`, falling back to
`"file.bin"` when empty.  `urllib.parse.unquote` is modelled below:
maximal runs of `%XX` escapes are decoded as UTF-8 byte sequences with
`errors="replace"`, everything else passes through.  The decoders carry
an explicit fuel argument (instantiated with the input length, which
every step strictly decreases) so that they stay structurally
recursive. -/

/-- The replacement character U+FFFD emitted by `errors="replace"`. -/
def replChar : Char := Char.ofNat 0xFFFD

/-- A UTF-8 continuation byte `0x80..0xBF`. -/
def isCont (b : Nat) : Bool := decide (0x80 ≤ b ∧ b ≤ 0xBF)

/-- UTF-8 decoding with the `errors="replace"` policy of
`bytes.decode("utf-8", "replace")`: every maximal ill-formed subpart is
replaced by one U+FFFD. -/
def utf8DecodeFuel : Nat → List Nat → List Char
  | 0, _ => []
  | _ + 1, [] => []
  | fuel + 1, b :: rest =>
    if b < 0x80 then Char.ofNat b :: utf8DecodeFuel fuel rest
    else if 0xC2 ≤ b ∧ b ≤ 0xDF then
      match rest with
      | [] => [replChar]
      | c :: rest2 =>
        if isCont c then
          Char.ofNat ((b - 0xC0) * 0x40 + (c - 0x80)) :: utf8DecodeFuel fuel rest2
        else replChar :: utf8DecodeFuel fuel rest
    else if 0xE0 ≤ b ∧ b ≤ 0xEF then
      match rest with
      | [] => [replChar]
      | c :: rest2 =>
        if (b = 0xE0 → 0xA0 ≤ c) ∧ (b = 0xED → c ≤ 0x9F) ∧ isCont c = true then
          match rest2 with
          | [] => [replChar]
          | d :: rest3 =>
            if isCont d then
              Char.ofNat ((b - 0xE0) * 0x1000 + (c - 0x80) * 0x40 + (d - 0x80)) ::
                utf8DecodeFuel fuel rest3
            else replChar :: utf8DecodeFuel fuel rest2
        else replChar :: utf8DecodeFuel fuel rest
    else if 0xF0 ≤ b ∧ b ≤ 0xF4 then
      match rest with
      | [] => [replChar]
      | c :: rest2 =>
        if (b = 0xF0 → 0x90 ≤ c) ∧ (b = 0xF4 → c ≤ 0x8F) ∧ isCont c = true then
          match rest2 with
          | [] => [replChar]
          | d :: rest3 =>
            if isCont d then
              match rest3 with
              | [] => [replChar]
              | e :: rest4 =>
                if isCont e then
                  Char.ofNat ((b - 0xF0) * 0x40000 + (c - 0x80) * 0x1000 +
                    (d - 0x80) * 0x40 + (e - 0x80)) :: utf8DecodeFuel fuel rest4
                else replChar :: utf8DecodeFuel fuel rest3
            else replChar :: utf8DecodeFuel fuel rest2
        else replChar :: utf8DecodeFuel fuel rest
    else replChar :: utf8DecodeFuel fuel rest

def utf8Decode (bs : List Nat) : List Char := utf8DecodeFuel bs.length bs

/-- Value of a hex digit, `none` for a non-digit. -/
def hexVal (c : Char) : Option Nat :=
  if '0' ≤ c ∧ c ≤ '9' then some (c.toNat - '0'.toNat)
  else if 'a' ≤ c ∧ c ≤ 'f' then some (c.toNat - 'a'.toNat + 10)
  else if 'A' ≤ c ∧ c ≤ 'F' then some (c.toNat - 'A'.toNat + 10)
  else none

/-- The scan of `urllib.parse.unquote`: `pend` accumulates the bytes of
the current run of `%XX` escapes; a non-escape flushes the run through
the UTF-8 decoder; a `%` not followed by two hex digits is literal. -/
def unquoteFuel : Nat → List Char → List Nat → List Char
  | 0, l, pend => utf8Decode pend ++ l
  | _ + 1, [], pend => utf8Decode pend
  | fuel + 1, c :: rest, pend =>
    if c = '%' then
      match rest with
      | h1 :: h2 :: rest2 =>
        match hexVal h1, hexVal h2 with
        | some a, some b => unquoteFuel fuel rest2 (pend ++ [16 * a + b])
        | _, _ => utf8Decode pend ++ c :: unquoteFuel fuel rest []
      | _ => utf8Decode pend ++ c :: unquoteFuel fuel rest []
    else utf8Decode pend ++ c :: unquoteFuel fuel rest []

/-- `urllib.parse.unquote` with the default `utf-8`/`replace` codec. -/
def unquote (s : List Char) : List Char := unquoteFuel s.length s []

/-- Python whitespace (`str.strip`, regex `\s`): ASCII whitespace, the
information separators, and the Unicode space code points. -/
def isPySpace (c : Char) : Bool :=
  decide (c.toNat = 0x20 ∨ (0x9 ≤ c.toNat ∧ c.toNat ≤ 0xD) ∨
    (0x1C ≤ c.toNat ∧ c.toNat ≤ 0x1F) ∨ c.toNat = 0x85 ∨ c.toNat = 0xA0 ∨
    c.toNat = 0x1680 ∨ (0x2000 ≤ c.toNat ∧ c.toNat ≤ 0x200A) ∨
    c.toNat = 0x2028 ∨ c.toNat = 0x2029 ∨ c.toNat = 0x202F ∨
    c.toNat = 0x205F ∨ c.toNat = 0x3000)

/-- The regex class `[\s_]` of the run-collapsing substitution. -/
def isWsU (c : Char) : Bool := isPySpace c || c == '_'

/-- The regex class `[\\/:*?"<>|\x00-\x1F]` of the first substitution. -/
def isBanned (c : Char) : Bool :=
  decide (c = '\\' ∨ c = '/' ∨ c = ':' ∨ c = '*' ∨ c = '?' ∨ c = '"' ∨
    c = '<' ∨ c = '>' ∨ c = '|' ∨ c.toNat ≤ 0x1F)

/-- `re.sub(r"[\\/:*?\"<>|\x00-\x1F]", "_", name)`. -/
def subBanned (l : List Char) : List Char :=
  l.map (fun c => if isBanned c then '_' else c)

/-- `re.sub(r"[\s_]{2,}", " ", name)`: a maximal run of two or more
`[\s_]` characters becomes one space; a lone one is kept.  `inRun` is
true while inside a run whose space has already been emitted. -/
def collapseAux : Bool → List Char → List Char
  | _, [] => []
  | inRun, c :: rest =>
    if isWsU c then
      if inRun then collapseAux true rest
      else
        match rest with
        | [] => [c]
        | d :: _ =>
          if isWsU d then ' ' :: collapseAux true rest
          else c :: collapseAux false rest
    else c :: collapseAux false rest

def collapseRuns (l : List Char) : List Char := collapseAux false l

/-- `str.strip()`: drop whitespace from both ends. -/
def pyStrip (l : List Char) : List Char :=
  List.rdropWhile isPySpace (List.dropWhile isPySpace l)

/-- The fallback name `"file.bin"`. -/
def fileBin : List Char := ['f', 'i', 'l', 'e', '.', 'b', 'i', 'n']

/-- `netutils.sanitize_filename`. -/
def sanitize_filename (name : List Char) : List Char :=
  let a := pyStrip (unquote name)
  let b := subBanned a
  let c := pyStrip (collapseRuns b)
  if c = [] then fileBin else c

/-! Structural facts feeding the idempotence analysis. -/

/-- No two adjacent characters are both in the `[\s_]` class. -/
def noRun (l : List Char) : Prop :=
  List.Chain' (fun a b => ¬(isWsU a = true ∧ isWsU b = true)) l

theorem subBanned_not_banned (l : List Char) :
    ∀ c ∈ subBanned l, isBanned c = false := by
  intro c hc
  simp only [subBanned, List.mem_map] at hc
  obtain ⟨a, -, rfl⟩ := hc
  by_cases h : isBanned a = true
  · rw [if_pos h]
    decide
  · rw [if_neg h]
    simpa using h

theorem subBanned_eq_self (l : List Char) (h : ∀ c ∈ l, isBanned c = false) :
    subBanned l = l := by
  unfold subBanned
  induction l with
  | nil => rfl
  | cons a t ih =>
    rw [List.map_cons, ih (fun c hc => h c (List.mem_cons_of_mem a hc)),
      if_neg (by simp [h a (List.mem_cons_self a t)])]

theorem collapseAux_mem :
    ∀ (l : List Char) (flag : Bool), ∀ c ∈ collapseAux flag l, c ∈ l ∨ c = ' ' := by
  intro l
  induction l with
  | nil =>
    intro flag c hc
    simp [collapseAux] at hc
  | cons a t ih =>
    intro flag c hc
    by_cases ha : isWsU a = true
    · cases flag with
      | true =>
        rw [show collapseAux true (a :: t) = collapseAux true t by
          simp [collapseAux, ha]] at hc
        rcases ih true c hc with h1 | h2
        · exact Or.inl (List.mem_cons_of_mem a h1)
        · exact Or.inr h2
      | false =>
        cases t with
        | nil =>
          rw [show collapseAux false [a] = [a] by simp [collapseAux, ha]] at hc
          simp at hc
          exact Or.inl (by simp [hc])
        | cons d t2 =>
          by_cases hd : isWsU d = true
          · rw [show collapseAux false (a :: d :: t2) =
                ' ' :: collapseAux true (d :: t2) by simp [collapseAux, ha, hd]] at hc
            rcases List.mem_cons.mp hc with h1 | h2
            · exact Or.inr h1
            · rcases ih true c h2 with h3 | h4
              · exact Or.inl (List.mem_cons_of_mem a h3)
              · exact Or.inr h4
          · rw [show collapseAux false (a :: d :: t2) =
                a :: collapseAux false (d :: t2) by simp [collapseAux, ha, hd]] at hc
            rcases List.mem_cons.mp hc with h1 | h2
            · exact Or.inl (by simp [h1])
            · rcases ih false c h2 with h3 | h4
              · exact Or.inl (List.mem_cons_of_mem a h3)
              · exact Or.inr h4
    · rw [show collapseAux flag (a :: t) = a :: collapseAux false t by
        cases flag <;> simp [collapseAux, ha]] at hc
      rcases List.mem_cons.mp hc with h1 | h2
      · exact Or.inl (by simp [h1])
      · rcases ih false c h2 with h3 | h4
        · exact Or.inl (List.mem_cons_of_mem a h3)
        · exact Or.inr h4

theorem collapseAux_inv :
    ∀ l : List Char,
      (noRun (collapseAux true l) ∧
        ∀ c ∈ (collapseAux true l).head?, isWsU c = false) ∧
      noRun (collapseAux false l) := by
  intro l
  induction l with
  | nil =>
    refine ⟨⟨?_, ?_⟩, ?_⟩ <;> simp [collapseAux, noRun]
  | cons a t ih =>
    obtain ⟨⟨ihT, ihTh⟩, ihF⟩ := ih
    by_cases ha : isWsU a = true
    · have hTeq : collapseAux true (a :: t) = collapseAux true t := by
        simp [collapseAux, ha]
      refine ⟨⟨by rw [hTeq]; exact ihT, by rw [hTeq]; exact ihTh⟩, ?_⟩
      cases t with
      | nil =>
        rw [show collapseAux false [a] = [a] by simp [collapseAux, ha]]
        simp [noRun]
      | cons d t2 =>
        by_cases hd : isWsU d = true
        · rw [show collapseAux false (a :: d :: t2) =
            ' ' :: collapseAux true (d :: t2) by simp [collapseAux, ha, hd]]
          rw [noRun, List.chain'_cons']
          refine ⟨?_, ihT⟩
          intro y hy
          have := ihTh y hy
          simp [this]
        · rw [show collapseAux false (a :: d :: t2) =
            a :: collapseAux false (d :: t2) by simp [collapseAux, ha, hd]]
          rw [noRun, List.chain'_cons']
          refine ⟨?_, ihF⟩
          intro y hy
          rw [show collapseAux false (d :: t2) = d :: collapseAux false t2 by
            simp [collapseAux, hd]] at hy
          simp at hy
          subst hy
          simp [hd]
    · have heq : ∀ flag, collapseAux flag (a :: t) = a :: collapseAux false t := by
        intro flag
        cases flag <;> simp [collapseAux, ha]
      have hchain : noRun (a :: collapseAux false t) := by
        rw [noRun, List.chain'_cons']
        refine ⟨?_, ihF⟩
        intro y _
        simp [ha]
      refine ⟨⟨by rw [heq]; exact hchain, ?_⟩, by rw [heq]; exact hchain⟩
      rw [heq]
      intro c hc
      simp at hc
      subst hc
      simpa using ha

theorem collapseAux_eq_self (l : List Char) (h : noRun l) :
    collapseAux false l = l := by
  induction l with
  | nil => rfl
  | cons a t ih =>
    rw [noRun, List.chain'_cons'] at h
    obtain ⟨hhead, htail⟩ := h
    by_cases ha : isWsU a = true
    · cases t with
      | nil => simp [collapseAux, ha]
      | cons d t2 =>
        have hd : isWsU d = false := by
          have h1 := hhead d (by simp)
          by_contra hcon
          exact h1 ⟨ha, by simpa using hcon⟩
        rw [show collapseAux false (a :: d :: t2) =
          a :: collapseAux false (d :: t2) by simp [collapseAux, ha, hd]]
        rw [ih htail]
    · rw [show collapseAux false (a :: t) = a :: collapseAux false t by
        simp [collapseAux, ha]]
      rw [ih htail]

/-- `pyStrip l` is a contiguous part of `l`. -/
theorem pyStrip_part (l : List Char) : pyStrip l <:+: l :=
  List.IsInfix.trans
    ( List.IsPrefix.isInfix
      ( List.rdropWhile_prefix isPySpace (List.dropWhile isPySpace l)))
    ( List.IsSuffix.isInfix ( List.dropWhile_suffix isPySpace))

theorem pyStrip_idem (l : List Char) : pyStrip (pyStrip l) = pyStrip l := by
  unfold pyStrip
  have h1 : List.dropWhile isPySpace
      (List.rdropWhile isPySpace (List.dropWhile isPySpace l)) =
      List.rdropWhile isPySpace (List.dropWhile isPySpace l) := by
    rw [List.dropWhile_eq_self_iff]
    intro hl
    have hne : List.rdropWhile isPySpace (List.dropWhile isPySpace l) ≠ [] :=
      List.length_pos.mp hl
    have hune : List.dropWhile isPySpace l ≠ [] := by
      intro hnil
      rw [hnil] at hne
      simp at hne
    have hhead := List.IsPrefix.head
      ( List.rdropWhile_prefix isPySpace (List.dropWhile isPySpace l)) hne
    rw [List.get_mk_zero, hhead]
    have := List.head_dropWhile_not isPySpace l hune
    simp [this]
  rw [h1, List.rdropWhile_idempotent]

/-- C5: the claim states `sanitize(sanitize(x)) = sanitize(x)` for every
string.  It fails on the double-escaped input `"%2541"`:
`sanitize_filename` URL-decodes its argument on every application, so
the first pass yields `"%41"` and the second decodes that again to
`"A"`. -/
theorem claim_C5_counterexample :
    sanitize_filename (sanitize_filename ['%', '2', '5', '4', '1']) ≠
      sanitize_filename ['%', '2', '5', '4', '1'] := by
  decide

/-- C5 (amended): the sanitizer is idempotent on every input whose
sanitized form is left unchanged by URL-decoding (in particular on
every string without percent-escapes); full idempotence fails exactly
because each application URL-decodes the input anew. -/
theorem claim_C5_idempotent_on_decoded (x : List Char)
    (h : unquote (sanitize_filename x) = sanitize_filename x) :
    sanitize_filename (sanitize_filename x) = sanitize_filename x := by
  by_cases hc : pyStrip (collapseRuns (subBanned (pyStrip (unquote x)))) = []
  · have hy : sanitize_filename x = fileBin := by
      simp only [sanitize_filename]
      rw [if_pos hc]
    rw [hy]
    decide
  · have hy : sanitize_filename x =
        pyStrip (collapseRuns (subBanned (pyStrip (unquote x)))) := by
      simp only [sanitize_filename]
      rw [if_neg hc]
    rw [hy] at h ⊢
    have hstrip : pyStrip (pyStrip (collapseRuns (subBanned (pyStrip (unquote x))))) =
        pyStrip (collapseRuns (subBanned (pyStrip (unquote x)))) :=
      pyStrip_idem _
    have hnb : ∀ c ∈ pyStrip (collapseRuns (subBanned (pyStrip (unquote x)))),
        isBanned c = false := by
      intro c hcmem
      have hmem : c ∈ collapseRuns (subBanned (pyStrip (unquote x))) :=
        List.IsInfix.subset ( pyStrip_part _) hcmem
      rcases collapseAux_mem _ false c hmem with hmem2 | hsp
      · exact subBanned_not_banned _ c hmem2
      · rw [hsp]
        decide
    have hnr : noRun (pyStrip (collapseRuns (subBanned (pyStrip (unquote x))))) := by
      have h0 : noRun (collapseRuns (subBanned (pyStrip (unquote x)))) :=
        (collapseAux_inv _).2
      exact List.Chain'.infix h0 ( pyStrip_part _)
    simp only [sanitize_filename]
    rw [h, hstrip, subBanned_eq_self _ hnb, collapseRuns, collapseAux_eq_self _ hnr,
      hstrip, if_neg hc]

theorem claim_C5_idempotent_on_decoded_witness :
    sanitize_filename (sanitize_filename ['a', 'b', 'c']) =
      sanitize_filename ['a', 'b', 'c'] :=
  claim_C5_idempotent_on_decoded ['a', 'b', 'c'] (by decide)

/-! ## `app/handlers.py` — `_ThrottleEdit`

`_ThrottleEdit.edit(text)` performs the underlying `msg.edit_text` only
when at least `interval` seconds have passed since the last performed
edit (`self._last` is updated before the attempt), and swallows every
exception of the attempt; otherwise the call does nothing at all.
Times are rationals; `deliverOk` models whether the underlying
`edit_text` succeeds. -/

structure ThrottleState where
  interval : ℚ
  last : ℚ
  deriving DecidableEq

/-- `_ThrottleEdit.edit`: returns whether the text actually reached the
user-visible message, with the updated state. -/
def throttle_edit (st : ThrottleState) (now : ℚ) (deliverOk : Bool) :
    Bool × ThrottleState :=
  if st.interval ≤ now - st.last then (deliverOk, ⟨st.interval, now⟩)
  else (false, st)

/-- A sequence of timed `edit` calls through one `_ThrottleEdit`. -/
def runEdits (st : ThrottleState) : List (ℚ × Bool) → List Bool
  | [] => []
  | (now, ok) :: rest =>
    let r := throttle_edit st now ok
    r.1 :: runEdits r.2 rest

/-- C4: the claim says the final status update of a terminal outcome is
never silently dropped.  But every final update goes through
`_ThrottleEdit.edit` (interval 1 s): after a progress edit performed at
time 0, a final edit arriving at time 1/2 returns without delivering
anything — the terminal message is silently lost. -/
theorem claim_C4_counterexample :
    runEdits ⟨1, -10⟩ [(0, true), (1/2, true)] = [true, false] := by
  norm_num [runEdits, throttle_edit]

/-- C4 (amended): each terminal outcome issues its final status edit
exactly once, but the edit is delivered only when the throttle interval
has elapsed since the last performed edit AND the underlying
`edit_text` does not fail; otherwise it is silently dropped (both the
throttle skip and the exception swallow are silent). -/
theorem claim_C4_final_edit_delivery (st : ThrottleState) (now : ℚ)
    (ok : Bool) :
    (throttle_edit st now ok).1 = true ↔
      (st.interval ≤ now - st.last ∧ ok = true) := by
  unfold throttle_edit
  split <;> simp_all

/-! ## `app/gofile_api.py` — `_normalize_response` and
`GofileClient.upload_file`

The remote answers with JSON; `_normalize_response` turns HTTP status
plus parsed body into a fixed-shape record.  JSON values: -/

inductive JVal
  | str (s : List Char)
  | num (n : Int)
  | bool (b : Bool)
  | null
  | obj (fields : List (List Char × JVal))
  | arr (elems : List JVal)

/-- A parsed JSON object body (`json.loads` result restricted to the
object shape all Gofile responses have; a failed parse is modelled by
the caller passing `{"status": "unknown"}` as the python code builds). -/
def JObj := List (List Char × JVal)

/-- Python truthiness of a JSON value. -/
def truthy : JVal → Bool
  | .str s => !s.isEmpty
  | .num n => decide (n ≠ 0)
  | .bool b => b
  | .null => false
  | .obj o => !o.isEmpty
  | .arr a => !a.isEmpty

/-- `dict.get(k)`: `none` models python `None` for an absent key. -/
def dGet (o : JObj) (k : List Char) : Option JVal :=
  (o.find? (fun p => decide (p.1 = k))).map (fun p => p.2)

/-- Python `x or y` over possibly-`None` JSON values. -/
def pyOr (a b : Option JVal) : Option JVal :=
  match a with
  | some v => if truthy v then some v else b
  | none => b

/-- Rendering of a JSON value inside an f-string; only the string case
is exercised by the code paths under study (Gofile codes are strings). -/
def renderJ : JVal → List Char
  | .str s => s
  | _ => []

def kData : List Char := ['d', 'a', 't', 'a']
def kCode : List Char := ['c', 'o', 'd', 'e']
def kId : List Char := ['i', 'd']
def kFileId : List Char := ['f', 'i', 'l', 'e', 'I', 'd']
def kContentId : List Char := ['c', 'o', 'n', 't', 'e', 'n', 't', 'I', 'd']
def kDownloadPage : List Char :=
  ['d', 'o', 'w', 'n', 'l', 'o', 'a', 'd', 'P', 'a', 'g', 'e']
def kDownloadpage : List Char :=
  ['d', 'o', 'w', 'n', 'l', 'o', 'a', 'd', 'p', 'a', 'g', 'e']
def kDownloadUrl : List Char :=
  ['d', 'o', 'w', 'n', 'l', 'o', 'a', 'd', 'U', 'r', 'l']
def kDownloadURL : List Char :=
  ['d', 'o', 'w', 'n', 'l', 'o', 'a', 'd', 'U', 'R', 'L']
def kPage : List Char := ['p', 'a', 'g', 'e']
def kUrl : List Char := ['u', 'r', 'l']
def kLink : List Char := ['l', 'i', 'n', 'k']
def kFileName : List Char := ['f', 'i', 'l', 'e', 'N', 'a', 'm', 'e']
def kFilename : List Char := ['f', 'i', 'l', 'e', 'n', 'a', 'm', 'e']
def kStatus : List Char := ['s', 't', 'a', 't', 'u', 's']
def kOk : List Char := ['o', 'k']
def kSuccess : List Char := ['s', 'u', 'c', 'c', 'e', 's', 's']
def kError : List Char := ['e', 'r', 'r', 'o', 'r']
def gofilePrefixStr : List Char :=
  ['h', 't', 't', 'p', 's', ':', '/', '/', 'g', 'o', 'f', 'i', 'l', 'e',
   '.', 'i', 'o', '/', 'd', '/']

/-- `data = j.get("data") or j` (the `data` value is an object in every
Gofile response shape). -/
def dataOf (j : JObj) : JObj :=
  match dGet j kData with
  | some (JVal.obj o) => if truthy (JVal.obj o) then o else j
  | _ => j

/-- The fixed-shape result of `_normalize_response`; `error = false`
models the absent `"error"` key, `httpStatus = none` the absent
`"httpStatus"` key. -/
structure Normalized where
  status : List Char
  downloadPage : Option (List Char)
  contentId : Option (List Char)
  fileName : List Char
  error : Bool
  httpStatus : Option Nat
  deriving DecidableEq

/-- `GofileClient._normalize_response(resp_status, raw_text, fallback)`
on the parsed body `j`. -/
def normalize_response (resp_status : Nat) (j : JObj)
    (fallback_name : List Char) : Normalized :=
  let data := dataOf j
  let code := pyOr (dGet data kCode) (pyOr (dGet data kId)
    (pyOr (dGet data kFileId) (dGet data kContentId)))
  let link := pyOr (dGet data kDownloadPage) (pyOr (dGet data kDownloadpage)
    (pyOr (dGet data kDownloadUrl) (pyOr (dGet data kDownloadURL)
    (pyOr (dGet data kPage) (pyOr (dGet data kUrl) (dGet data kLink))))))
  let link2 : Option (List Char) :=
    match link with
    | some v =>
      if truthy v then some (renderJ v)
      else match code with
        | some cv =>
          if truthy cv then some (gofilePrefixStr ++ renderJ cv)
          else some (renderJ v)
        | none => some (renderJ v)
    | none =>
      match code with
      | some cv =>
        if truthy cv then some (gofilePrefixStr ++ renderJ cv) else none
      | none => none
  let fnameVal := pyOr (dGet data kFileName) (dGet data kFilename)
  let fname := match fnameVal with
    | some v => if truthy v then renderJ v else fallback_name
    | none => fallback_name
  let statusVal := pyOr (dGet j kStatus) (pyOr (dGet data kStatus)
    (some (JVal.str (if resp_status = 200 then kOk else kError))))
  let status := match statusVal with
    | some (JVal.str s) => s.map Char.toLower
    | _ => []
  let cidVal := pyOr (dGet data kContentId) (pyOr (dGet data kFileId) code)
  let cid := (cidVal.map renderJ)
  let errCond := resp_status ≠ 200 ∨ (status ≠ kOk ∧ status ≠ kSuccess)
  { status := status
    downloadPage := link2
    contentId := cid
    fileName := fname
    error := decide errCond
    httpStatus := if errCond then some resp_status else none }

/-- `GofileClient.upload_file` over a server oracle mapping `as_guest`
to the HTTP status and parsed body of that upload attempt: one
authenticated attempt, retried exactly once without credentials iff the
first result carries `error` with `httpStatus` 401 or 403. -/
def upload_file (server : Bool → Nat × JObj) (fallback : List Char) :
    Normalized :=
  let first := normalize_response (server false).1 (server false).2 fallback
  if first.error = true ∧
      (first.httpStatus = some 401 ∨ first.httpStatus = some 403) then
    normalize_response (server true).1 (server true).2 fallback
  else first

/-- The `as_guest` flags of the attempts `upload_file` performs, in
order. -/
def uploadAttempts (server : Bool → Nat × JObj) (fallback : List Char) :
    List Bool :=
  let first := normalize_response (server false).1 (server false).2 fallback
  if first.error = true ∧
      (first.httpStatus = some 401 ∨ first.httpStatus = some 403) then
    [false, true]
  else [false]

theorem normalize_httpStatus (s : Nat) (j : JObj) (fb : List Char) :
    (normalize_response s j fb).httpStatus =
      if (normalize_response s j fb).error = true then some s else none := by
  simp only [normalize_response]
  by_cases h : s ≠ 200 ∨ ((match pyOr (dGet j kStatus) (pyOr (dGet (dataOf j) kStatus)
      (some (JVal.str (if s = 200 then kOk else kError)))) with
    | some (JVal.str t) => t.map Char.toLower
    | _ => []) ≠ kOk ∧ (match pyOr (dGet j kStatus) (pyOr (dGet (dataOf j) kStatus)
      (some (JVal.str (if s = 200 then kOk else kError)))) with
    | some (JVal.str t) => t.map Char.toLower
    | _ => []) ≠ kSuccess) <;> simp [h]

/-- C6: an upload whose first authenticated attempt is rejected with an
authorization-class error (HTTP 401 or 403, surfacing as a normalized
result with the error flag and that `httpStatus`) is retried exactly
once as guest and `upload_file` returns that second result; a success
or a non-authorization failure triggers no guest attempt; in every case
at most one guest attempt is made. -/
theorem claim_C6_guest_retry_once (server : Bool → Nat × JObj)
    (fb : List Char) :
    (((normalize_response (server false).1 (server false).2 fb).error = true ∧
        ((server false).1 = 401 ∨ (server false).1 = 403)) →
      upload_file server fb =
        normalize_response (server true).1 (server true).2 fb ∧
      uploadAttempts server fb = [false, true]) ∧
    ((¬ ((normalize_response (server false).1 (server false).2 fb).error = true ∧
        ((server false).1 = 401 ∨ (server false).1 = 403))) →
      upload_file server fb =
        normalize_response (server false).1 (server false).2 fb ∧
      uploadAttempts server fb = [false]) ∧
    (uploadAttempts server fb).count true ≤ 1 := by
  have hkey : ((normalize_response (server false).1 (server false).2 fb).error = true ∧
      ((normalize_response (server false).1 (server false).2 fb).httpStatus = some 401 ∨
       (normalize_response (server false).1 (server false).2 fb).httpStatus = some 403)) ↔
      ((normalize_response (server false).1 (server false).2 fb).error = true ∧
      ((server false).1 = 401 ∨ (server false).1 = 403)) := by
    rw [normalize_httpStatus]
    by_cases he : (normalize_response (server false).1 (server false).2 fb).error = true <;>
      simp [he]
  refine ⟨?_, ?_, ?_⟩
  · intro h
    have hc := hkey.mpr h
    exact ⟨by rw [upload_file, if_pos hc], by rw [uploadAttempts, if_pos hc]⟩
  · intro h
    have hc := fun hcon => h (hkey.mp hcon)
    exact ⟨by rw [upload_file, if_neg hc], by rw [uploadAttempts, if_neg hc]⟩
  · rw [uploadAttempts]
    split <;> decide

/-! ## `app/handlers.py` — `_process_http_url` and its
`pick_filename_for_url(url, default=...)` call

`netutils.pick_filename_for_url(url, fallback="download.bin")` is a
plain synchronous function with positional parameters `url` and
`fallback`; the URL handler invokes it as
`await pick_filename_for_url(url, default="download.bin")`.  We embed
python's call binding to settle what that invocation does. -/

inductive PyCallError
  | unexpectedKeyword (k : List Char)
  | multipleValues (k : List Char)
  | missingArgument (k : List Char)
  deriving DecidableEq

/-- Python call binding for a function whose positional-or-keyword
parameters are `params`, the last `defaults` of which carry default
values, called with `npos` positional arguments and keyword arguments
`kwargs`: a keyword that names no parameter raises
`TypeError: unexpected keyword argument`; a keyword for an
already-positionally-bound parameter raises `multiple values`; an
unbound parameter without default raises `missing argument`. -/
def bindCall (params : List (List Char)) (defaults : Nat) (npos : Nat)
    (kwargs : List (List Char)) : Except PyCallError Unit :=
  match kwargs.find? (fun k => decide (k ∉ params)) with
  | some k => .error (.unexpectedKeyword k)
  | none =>
    match kwargs.find? (fun k => decide (k ∈ params.take npos)) with
    | some k => .error (.multipleValues k)
    | none =>
      match (params.take (params.length - defaults)).drop npos
          |>.find? (fun k => decide (k ∉ kwargs)) with
      | some k => .error (.missingArgument k)
      | none => .ok ()

def kUrlParam : List Char := ['u', 'r', 'l']
def kFallback : List Char := ['f', 'a', 'l', 'l', 'b', 'a', 'c', 'k']
def kDefault : List Char := ['d', 'e', 'f', 'a', 'u', 'l', 't']
def kUrlDownload : List Char :=
  ['U', 'R', 'L', ' ', 'd', 'o', 'w', 'n', 'l', 'o', 'a', 'd']

/-- The parameter list of `pick_filename_for_url`, second parameter
defaulted. -/
def pick_filename_params : List (List Char) := [kUrlParam, kFallback]

/-- The call at handlers.py:217:
`pick_filename_for_url(url, default="download.bin")` — one positional
argument and the keyword `default`. -/
def pick_filename_call : Except PyCallError Unit :=
  bindCall pick_filename_params 1 1 [kDefault]

/-- The stages of `_process_http_url` relevant to the claim, abstracted
over everything the later stages would do: whether `smart_download`
would succeed, how many bytes it would transfer, and how many upload
attempts the credential loop would make. -/
structure UrlEnv where
  downloadOk : Bool
  downloadedBytes : Nat
  uploadRounds : Nat

/-- Observable actions of one `_process_http_url` run. -/
inductive Event
  | editStatus
  | editError (stage : List Char)
  | transferBytes (n : Nat)
  | uploadAttempt
  deriving DecidableEq

/-- `_process_http_url`: reply + "downloading" edit, then the filename
step (whose python-level call binding is `pick_filename_call`); a
`TypeError` there is caught by `except Exception`, edits the
"URL download" error and returns.  Only with a successful binding would
the run proceed to `smart_download` and the upload loop. -/
def process_http_url (env : UrlEnv) : List Event :=
  let pre := [Event.editStatus, Event.editStatus]
  match pick_filename_call with
  | .error _ => pre ++ [Event.editError kUrlDownload]
  | .ok _ =>
    if env.downloadOk then
      pre ++ [Event.transferBytes env.downloadedBytes, Event.editStatus] ++
        List.replicate env.uploadRounds Event.uploadAttempt
    else pre ++ [Event.editError kUrlDownload]

/-- C2: the `default=` keyword matches no parameter of
`pick_filename_for_url` (whose second parameter is named `fallback`),
so every URL message raises `TypeError` in the download stage: the run
always ends in the "URL download" error branch, transfers no bytes,
and never reaches the upload loop — for every behaviour of the
environment. -/
theorem claim_C2_url_typeerror (env : UrlEnv) :
    pick_filename_call = .error (.unexpectedKeyword kDefault) ∧
    process_http_url env =
      [.editStatus, .editStatus, .editError kUrlDownload] ∧
    (∀ n, Event.transferBytes n ∉ process_http_url env) ∧
    Event.uploadAttempt ∉ process_http_url env := by
  have hcall : pick_filename_call = .error (.unexpectedKeyword kDefault) := rfl
  have hrun : process_http_url env =
      [.editStatus, .editStatus, .editError kUrlDownload] := by
    rw [process_http_url, hcall]
    rfl
  refine ⟨hcall, hrun, ?_, ?_⟩
  · intro n
    rw [hrun]
    simp
  · rw [hrun]
    simp

theorem claim_C2_url_typeerror_witness :
    pick_filename_call = .error (.unexpectedKeyword kDefault) ∧
    process_http_url ⟨true, 1024, 1⟩ =
      [.editStatus, .editStatus, .editError kUrlDownload] ∧
    (∀ n, Event.transferBytes n ∉ process_http_url ⟨true, 1024, 1⟩) ∧
    Event.uploadAttempt ∉ process_http_url ⟨true, 1024, 1⟩ :=
  claim_C2_url_typeerror ⟨true, 1024, 1⟩

theorem claim_C6_guest_retry_once_witness :
    let server : Bool → Nat × JObj := fun g =>
      if g then (200, [(kStatus, JVal.str kOk)]) else (401, [])
    (((normalize_response (server false).1 (server false).2 []).error = true ∧
        ((server false).1 = 401 ∨ (server false).1 = 403)) →
      upload_file server [] =
        normalize_response (server true).1 (server true).2 [] ∧
      uploadAttempts server [] = [false, true]) ∧
    ((¬ ((normalize_response (server false).1 (server false).2 []).error = true ∧
        ((server false).1 = 401 ∨ (server false).1 = 403))) →
      upload_file server [] =
        normalize_response (server false).1 (server false).2 [] ∧
      uploadAttempts server [] = [false]) ∧
    (uploadAttempts server []).count true ≤ 1 :=
  claim_C6_guest_retry_once
    (fun g => if g then (200, [(kStatus, JVal.str kOk)]) else (401, [])) []

end Gofile
